import Mathlib

/-!
Verification development for the WAVE-WAVI habit-report reconciliation engine.

The definitions below are a shallow embedding of the Python sources:
  * `src/api/generate_report.py`  (time utilities, failure-reason classifier,
    aggregation inside `build_prompt`, `extract_json_safely`, the
    recommendation reconciliation block of `main`)
  * `src/app/main.py`             (`_filter_habits_by_date_range`,
    `_postprocess_recommendations`, `_attach_habit_ids_to_failures`)

Python strings are modelled as `List Char`, JSON-ish optional fields as
`Option`, and code that can raise as `Option`/`Except` returning functions.
-/

/-- Python strings modelled as lists of characters. -/
abbrev Str := List Char

/-- Shorthand to build a `Str` from a Lean string literal. -/
def strOf (s : String) : Str := s.toList

/-- The ASCII whitespace characters recognised by Python's `str.strip()` and
by the regex class `\s` (restricted to ASCII, which is all the sources use). -/
def pyIsSpace (c : Char) : Bool :=
  c = ' ' || c = '\t' || c = '\n' || c = '\r' || c = '\x0b' || c = '\x0c'

/-- Python `str.strip()`: drop whitespace from both ends. -/
def pyStrip (s : Str) : Str :=
  ((s.dropWhile pyIsSpace).reverse.dropWhile pyIsSpace).reverse

/-- Python `str.lower()` (ASCII case folding; the Korean source text is
unaffected by lowering, matching CPython's behaviour on it). -/
def pyLower (s : Str) : Str := s.map Char.toLower

/-- `text.strip().lower()`, the name/reason normalisation the sources use. -/
def normName (s : Str) : Str := pyLower (pyStrip s)

/-- Value of an ASCII digit. -/
def digitVal (c : Char) : Nat := c.toNat - 48

/-! ### Time utilities (`src/api/generate_report.py`, lines 35-48)

`parse_hhmm` is `datetime.strptime(s, "%H:%M")`: one or two digits of hour
(0-23), a colon, one or two digits of minute (0-59), and nothing else;
any other input raises `ValueError`, modelled by `none`.  The result is the
number of minutes since midnight. -/

def parseHHMM (s : Str) : Option Nat :=
  match s with
  | [a, b, ':', c, d] =>
    if a.isDigit && b.isDigit && c.isDigit && d.isDigit then
      let h := digitVal a * 10 + digitVal b
      let m := digitVal c * 10 + digitVal d
      if h ≤ 23 && m ≤ 59 then some (h * 60 + m) else none
    else none
  | [a, ':', c, d] =>
    if a.isDigit && c.isDigit && d.isDigit then
      let m := digitVal c * 10 + digitVal d
      if m ≤ 59 then some (digitVal a * 60 + m) else none
    else none
  | [a, b, ':', c] =>
    if a.isDigit && b.isDigit && c.isDigit then
      let h := digitVal a * 10 + digitVal b
      if h ≤ 23 then some (h * 60 + digitVal c) else none
    else none
  | [a, ':', c] =>
    if a.isDigit && c.isDigit then some (digitVal a * 60 + digitVal c) else none
  | _ => none

/-- Two-digit zero-padded decimal rendering (as `strftime` does). -/
def pad2 (n : Nat) : Str :=
  if n ≤ 9 then ['0', Char.ofNat (48 + n)]
  else [Char.ofNat (48 + n / 10), Char.ofNat (48 + n % 10)]

/-- Format minutes-since-midnight as `HH:MM` (`strftime("%H:%M")`). -/
def fmtHHMM (m : Nat) : Str := pad2 (m / 60) ++ ':' :: pad2 (m % 60)

/-- `minutes_between` (generate_report.py line 40): difference in minutes,
clamped below at 0; `none` when either time fails to parse (Python raises). -/
def minutes_between (start_hhmm end_hhmm : Str) : Option Int :=
  match parseHHMM start_hhmm, parseHHMM end_hhmm with
  | some a, some b => some (max ((b : Int) - (a : Int)) 0)
  | _, _ => none

/-- `add_minutes` (generate_report.py line 46): add a minute delta to a
parsed `HH:MM` time and re-render with `strftime("%H:%M")`, which discards
the day overflow, i.e. works modulo 1440 minutes. -/
def add_minutes (hhmm : Str) (delta : Int) : Option Str :=
  (parseHHMM hhmm).map fun a => fmtHHMM (((a : Int) + delta).emod 1440).toNat

/-! ### Date parsing (`datetime.strptime(-, "%Y-%m-%d").date()`)

Exactly four digits of year (≥ 1), one or two digits of month (1-12), one
or two digits of day (valid for the month/year), nothing else. -/

structure PDate where
  y : Nat
  m : Nat
  d : Nat
deriving DecidableEq, Repr

/-- Calendar order on dates, as a Boolean (lexicographic on y, m, d). -/
def pdateLE (a b : PDate) : Bool :=
  Nat.blt a.y b.y ||
    (a.y == b.y && (Nat.blt a.m b.m || (a.m == b.m && Nat.ble a.d b.d)))

def isLeap (y : Nat) : Bool := y % 4 == 0 && (y % 100 != 0 || y % 400 == 0)

def daysInMonth (y m : Nat) : Nat :=
  if m == 2 then (if isLeap y then 29 else 28)
  else if m == 4 || m == 6 || m == 9 || m == 11 then 30
  else 31

/-- Build a date after validating the strptime/datetime range checks. -/
def mkDate (y m d : Nat) : Option PDate :=
  if 1 ≤ y && 1 ≤ m && m ≤ 12 && 1 ≤ d && d ≤ daysInMonth y m then
    some ⟨y, m, d⟩
  else none

def parseDate (s : Str) : Option PDate :=
  match s with
  | [a, b, c, d, '-', e, f, '-', g, h] =>
    if a.isDigit && b.isDigit && c.isDigit && d.isDigit && e.isDigit
        && f.isDigit && g.isDigit && h.isDigit then
      mkDate (digitVal a * 1000 + digitVal b * 100 + digitVal c * 10 + digitVal d)
        (digitVal e * 10 + digitVal f) (digitVal g * 10 + digitVal h)
    else none
  | [a, b, c, d, '-', e, '-', g, h] =>
    if a.isDigit && b.isDigit && c.isDigit && d.isDigit && e.isDigit
        && g.isDigit && h.isDigit then
      mkDate (digitVal a * 1000 + digitVal b * 100 + digitVal c * 10 + digitVal d)
        (digitVal e) (digitVal g * 10 + digitVal h)
    else none
  | [a, b, c, d, '-', e, f, '-', g] =>
    if a.isDigit && b.isDigit && c.isDigit && d.isDigit && e.isDigit
        && f.isDigit && g.isDigit then
      mkDate (digitVal a * 1000 + digitVal b * 100 + digitVal c * 10 + digitVal d)
        (digitVal e * 10 + digitVal f) (digitVal g)
    else none
  | [a, b, c, d, '-', e, '-', g] =>
    if a.isDigit && b.isDigit && c.isDigit && d.isDigit && e.isDigit
        && g.isDigit then
      mkDate (digitVal a * 1000 + digitVal b * 100 + digitVal c * 10 + digitVal d)
        (digitVal e) (digitVal g)
    else none
  | _ => none

example : parseHHMM (strOf "09:00") = some 540 := by decide
example : parseHHMM (strOf "9:5") = some 545 := by decide
example : parseHHMM (strOf "09:00:00") = none := by decide
example : parseHHMM (strOf "24:00") = none := by decide
example : add_minutes (strOf "09:00") 45 = some (strOf "09:45") := by decide
example : minutes_between (strOf "09:00") (strOf "10:00") = some 60 := by decide
example : parseDate (strOf "2025-02-29") = none := by decide
example : parseDate (strOf "2024-2-29") = some ⟨2024, 2, 29⟩ := by decide
example : parseDate (strOf "2025-13-01") = none := by decide

/-! ### Data model

`HabitLog` / `Habit` follow the pydantic models in `src/app/main.py`
(lines 36-48).  A `failure_reason` element that is not a JSON string is
modelled as `none` (the classifier skips such values). -/

structure HabitLog where
  date : Str
  completed : Bool
  failure_reason : List (Option Str)
deriving DecidableEq, Repr

structure Habit where
  habit_id : Int
  name : Str
  day_of_week : List Int
  start_time : Str
  end_time : Str
  habit_log : List HabitLog
deriving DecidableEq, Repr

/-! ### Failure-reason classifier
(`src/api/generate_report.py`, lines 77-150) -/

/-- `CATEGORY_LABELS` (lines 77-84). -/
def CATEGORY_LABELS : List Str :=
  [strOf "의지 부족", strOf "건강 문제", strOf "과도한 목표 설정",
   strOf "시간 부족", strOf "일정 충돌", strOf "기타 (직접 입력)"]

/-- The catch-all label `기타 (직접 입력)`. -/
def CATCH_ALL : Str := strOf "기타 (직접 입력)"

/-- An alternative of one of the `CATEGORY_RULES` regexes: a list of literal
chunks that appear in order, separated by `\s*` (any run of whitespace).
Nested groups such as `알람\s*(못\s*들음|실패)` are expanded into separate
alternatives; this preserves the matching semantics because the regexes
contain no other operators. -/
abbrev RuleAlt := List Str

/-- `CATEGORY_RULES` (lines 87-105): ordered list of
(alternatives, label). -/
def CATEGORY_RULES : List (List RuleAlt × Str) :=
  [ ([[strOf "의욕", strOf "저하"], [strOf "동기", strOf "저하"],
      [strOf "하기", strOf "싫"], [strOf "미루"], [strOf "귀찮"],
      [strOf "의지", strOf "부족"], [strOf "싫어서"],
      [strOf "노트북", strOf "펴기", strOf "싫"]], strOf "의지 부족"),
    ([[strOf "피곤"], [strOf "피로"], [strOf "수면", strOf "부족"],
      [strOf "졸림"], [strOf "늦잠"], [strOf "알람", strOf "못", strOf "들음"],
      [strOf "알람", strOf "실패"], [strOf "컨디션", strOf "저하"],
      [strOf "감기"], [strOf "두통"], [strOf "생리"], [strOf "근육통"],
      [strOf "통증"], [strOf "부상"], [strOf "과로"],
      [strOf "몸", strOf "상태", strOf "안좋"]], strOf "건강 문제"),
    ([[strOf "과도"], [strOf "무리"], [strOf "버겁"], [strOf "부담"],
      [strOf "강도", strOf "높"], [strOf "시간", strOf "너무", strOf "길"],
      [strOf "빈도", strOf "너무", strOf "잦"], [strOf "목표", strOf "크"],
      [strOf "빡세"]], strOf "과도한 목표 설정"),
    ([[strOf "시간", strOf "부족"], [strOf "바쁨"], [strOf "바빠"],
      [strOf "업무"], [strOf "회사"], [strOf "과제"], [strOf "숙제"],
      [strOf "시험", strOf "공부"], [strOf "준비", strOf "하느라"],
      [strOf "마감"], [strOf "알바"], [strOf "출근"], [strOf "등교"],
      [strOf "가사"], [strOf "집안일"]], strOf "시간 부족"),
    ([[strOf "일정", strOf "충돌"], [strOf "외출", strOf "일정"],
      [strOf "약속"], [strOf "행사"], [strOf "모임"], [strOf "여행"],
      [strOf "스케줄", strOf "겹"], [strOf "주말"], [strOf "공휴일"]],
      strOf "일정 충돌"),
    ([[strOf "날씨"], [strOf "더움"], [strOf "추움"], [strOf "폭염"],
      [strOf "폭우"], [strOf "눈", strOf "옴"], [strOf "한파"],
      [strOf "비", strOf "옴"]], strOf "기타 (직접 입력)") ]

/-- Match the chunk list of an alternative at the head of `s`: each literal
chunk is a prefix and consecutive chunks are separated by `\s*`.  Greedy
whitespace skipping is exact here because no chunk begins with whitespace. -/
def matchChunks : RuleAlt → Str → Bool
  | [], _ => true
  | l :: ls, s => l.isPrefixOf s && matchChunks ls ((s.drop l.length).dropWhile pyIsSpace)

/-- `re.search` semantics for one alternative: try every start position. -/
def searchAlt (alt : RuleAlt) : Str → Bool
  | [] => matchChunks alt []
  | c :: r => matchChunks alt (c :: r) || searchAlt alt r

/-- A rule matches when any of its alternatives matches somewhere. -/
def matchRule (alts : List RuleAlt) (s : Str) : Bool :=
  alts.any fun alt => searchAlt alt s

/-- `re.sub(r"\s+", " ", t)`: collapse each whitespace run to one space. -/
def collapseWSAux (prevSpace : Bool) : Str → Str
  | [] => []
  | c :: rest =>
    if pyIsSpace c then
      if prevSpace then collapseWSAux true rest
      else ' ' :: collapseWSAux true rest
    else c :: collapseWSAux false rest

def collapseWS (s : Str) : Str := collapseWSAux false s

/-- The `for pat, label in CATEGORY_RULES` loop: first matching rule wins. -/
def findRuleLabel (t : Str) : List (List RuleAlt × Str) → Option Str
  | [] => none
  | (alts, lbl) :: rest =>
    if matchRule alts t then some lbl else findRuleLabel t rest

/-- `normalize_reason_category` (lines 107-116). -/
def normalize_reason_category (text : Str) : Str :=
  let t := normName text
  if t = [] then CATCH_ALL
  else
    match findRuleLabel (collapseWS t) CATEGORY_RULES with
    | some lbl => lbl
    | none => CATCH_ALL

example : normalize_reason_category (strOf "의지 부족 때문에 못했어요") = strOf "의지 부족" := by decide
example : normalize_reason_category (strOf "갑자기 비가 와서") = CATCH_ALL := by decide
example : normalize_reason_category (strOf "   ") = CATCH_ALL := by decide
example : normalize_reason_category (strOf "늦잠 잤어요") = strOf "건강 문제" := by decide

/-! ### Per-habit top failure reasons
(`compute_per_habit_top_failure_reasons`, generate_report.py lines 118-150)

The `collections.Counter` is an insertion-ordered association list;
`most_common(k)` sorts by count descending, ties broken by first-insertion
order (CPython's `nlargest` is stable), and takes the first `k`. -/

/-- `counter[label] += 1` on an insertion-ordered association list. -/
def counterBump (k : Str) : List (Str × Nat) → List (Str × Nat)
  | [] => [(k, 1)]
  | (k', n) :: rest =>
    if k' = k then (k', n + 1) :: rest else (k', n) :: counterBump k rest

/-- Stable descending insertion by count: an element moves past earlier
elements only when their count is strictly larger. -/
def insDesc (x : Str × Nat) : List (Str × Nat) → List (Str × Nat)
  | [] => [x]
  | y :: ys => if x.2 < y.2 then y :: insDesc x ys else x :: y :: ys

def sortDescByCount : List (Str × Nat) → List (Str × Nat)
  | [] => []
  | x :: xs => insDesc x (sortDescByCount xs)

/-- `Counter.most_common(k)`, keeping only the labels. -/
def mostCommonLabels (c : List (Str × Nat)) (k : Nat) : List Str :=
  ((sortDescByCount c).take k).map Prod.fst

/-- The inner `for raw in (log.get("failure_reason") or [])` loop:
non-string reasons are skipped, strings are classified and counted. -/
def bumpReasons (c : List (Str × Nat)) : List (Option Str) → List (Str × Nat)
  | [] => c
  | none :: rest => bumpReasons c rest
  | some s :: rest => bumpReasons (counterBump (normalize_reason_category s) c) rest

/-- The outer `for log in logs` loop: entries with `completed is True` are
skipped. -/
def reasonCounterAux (c : List (Str × Nat)) : List HabitLog → List (Str × Nat)
  | [] => c
  | log :: rest =>
    if log.completed then reasonCounterAux c rest
    else reasonCounterAux (bumpReasons c log.failure_reason) rest

/-- The per-habit counter built by the inner loops of
`compute_per_habit_top_failure_reasons`. -/
def habitReasonCounter (logs : List HabitLog) : List (Str × Nat) :=
  reasonCounterAux [] logs

structure ReasonEntry where
  habit_id : Int
  name : Str
  reasons : List Str
deriving DecidableEq, Repr

/-- `compute_per_habit_top_failure_reasons` (lines 118-150). -/
def compute_per_habit_top_failure_reasons (active_habits : List Habit)
    (topk : Nat := 2) : List ReasonEntry :=
  active_habits.map fun habit =>
    { habit_id := habit.habit_id
      name := habit.name
      reasons := mostCommonLabels (habitReasonCounter habit.habit_log) topk }

/-! ### Aggregator (the statistics inside `build_prompt`,
generate_report.py lines 162-193)

Python float division is modelled over `ℚ`; the zero-attempt guards are
the `if attempts else 0.0` expressions of the source. -/

def habitAttempts (h : Habit) : Nat := h.habit_log.length

def habitSuccesses (h : Habit) : Nat :=
  (h.habit_log.filter fun log => log.completed).length

/-- `success_rate = (successes / attempts * 100) if attempts else 0.0`. -/
def habit_success_rate (h : Habit) : ℚ :=
  if habitAttempts h = 0 then 0
  else (habitSuccesses h : ℚ) / (habitAttempts h : ℚ) * 100

/-- The `total_attempts` / `total_successes` accumulation loop. -/
def buildPromptTotals (habits : List Habit) : Nat × Nat :=
  habits.foldl (fun acc h => (acc.1 + habitAttempts h, acc.2 + habitSuccesses h)) (0, 0)

/-- `overall_success_rate = (total_successes / total_attempts * 100) if
total_attempts else 0.0` (line 193). -/
def overall_success_rate (habits : List Habit) : ℚ :=
  let t := buildPromptTotals habits
  if t.1 = 0 then 0 else (t.2 : ℚ) / (t.1 : ℚ) * 100

/-- The overall rate as §4.2 of the spec words it: sum attempts and
successes across all habits before dividing. -/
def pooledRateSpec (habits : List Habit) : ℚ :=
  if (habits.map habitAttempts).sum = 0 then 0
  else ((habits.map habitSuccesses).sum : ℚ) / ((habits.map habitAttempts).sum : ℚ) * 100

/-- The (wrong) alternative the spec rules out: mean of per-habit rates. -/
def meanRateSpec (habits : List Habit) : ℚ :=
  (habits.map habit_success_rate).sum / (habits.length : ℚ)

/-! ### Response extractor (`extract_json_safely`,
generate_report.py lines 294-327)

Strategy (a): `re.search(r"```json\s*(\{.*?\})\s*```", text, re.DOTALL)`,
(b): the same with a bare ` ``` ` fence, (c): brace-balanced scan from the
first `\x7b`.  The lazy group plus the trailing `\s*` fence amount to:
after the literal tag skip whitespace, require `\x7b`, then find the
shortest body whose closing `\x7d` is followed by whitespace and ` ``` `. -/

def openBrace : Char := '\x7b'
def closeBrace : Char := '\x7d'
def backtick : Char := '\x60'

def fenceLit : Str := [backtick, backtick, backtick]
def tagJson : Str := fenceLit ++ strOf "json"

/-- Lazy scan for the closing brace of the fenced group: the first `\x7d`
followed (after whitespace) by ` ``` ` ends the group; other `\x7d`
characters are swallowed into the body, as regex backtracking does. -/
def scanLazy (acc : Str) : Str → Option Str
  | [] => none
  | c :: rest =>
    if c = closeBrace && fenceLit.isPrefixOf (rest.dropWhile pyIsSpace) then
      some acc.reverse
    else scanLazy (c :: acc) rest

/-- Match the fenced pattern anchored at the start of `s`. -/
def matchFenced (tag : Str) (s : Str) : Option Str :=
  if tag.isPrefixOf s then
    match (s.drop tag.length).dropWhile pyIsSpace with
    | c :: body =>
      if c = openBrace then
        (scanLazy [] body).map fun b => openBrace :: (b ++ [closeBrace])
      else none
    | [] => none
  else none

/-- `re.search`: try the anchored match at every start position. -/
def searchFenced (tag : Str) : Str → Option Str
  | [] => matchFenced tag []
  | c :: rest =>
    match matchFenced tag (c :: rest) with
    | some g => some g
    | none => searchFenced tag rest

/-- The brace-balancing loop (lines 316-325), running on the suffix that
starts at the first `\x7b`; `none` when the braces never balance. -/
def balanceFrom (acc : Str) (depth : Int) : Str → Option Str
  | [] => none
  | c :: rest =>
    let depth' := if c = openBrace then depth + 1
      else if c = closeBrace then depth - 1 else depth
    if c = closeBrace && depth' = 0 then some (c :: acc).reverse
    else balanceFrom (c :: acc) depth' rest

/-- `text.find("\x7b")` plus the balancing loop. -/
def fromFirstBrace : Str → Option Str
  | [] => none
  | c :: rest =>
    if c = openBrace then balanceFrom [] 0 (c :: rest)
    else fromFirstBrace rest

/-- `extract_json_safely` (lines 294-327). -/
def extract_json_safely (text : Str) : Str :=
  match searchFenced tagJson text with
  | some g => pyStrip g
  | none =>
    match searchFenced fenceLit text with
    | some g => pyStrip g
    | none =>
      match fromFirstBrace text with
      | some g => pyStrip g
      | none => pyStrip text

example : extract_json_safely (strOf "```json \x7b\"a\": 1\x7d ```") = strOf "\x7b\"a\": 1\x7d" := by decide
example : extract_json_safely (strOf "``` \x7b\"a\": 1\x7d ```") = strOf "\x7b\"a\": 1\x7d" := by decide
example : extract_json_safely (strOf "x \x7b\x7b1\x7d 2\x7d y") = strOf "\x7b\x7b1\x7d 2\x7d" := by decide
example : extract_json_safely (strOf "  hello ") = strOf "hello" := by decide
example : extract_json_safely (strOf "\x7b never closed") = strOf "\x7b never closed" := by decide

/-! ### Time-window filters

`_filter_habits_by_date_range` (src/app/main.py lines 151-172): per-entry
`try/except` keeps exactly the in-range parsable dates; habits whose
filtered log is empty are dropped.  `extract_last_days_logs`
(generate_report.py lines 51-58) has no `try/except`: a malformed date
raises (modelled by `Except.error`); its window `[today - days, today]` is
passed in as two explicit dates, since the source reads the clock. -/

/-- The inner `for log in logs: try ... except: continue` loop. -/
def filterLogsInRange (sd ed : PDate) : List HabitLog → List HabitLog
  | [] => []
  | log :: rest =>
    match parseDate log.date with
    | some d =>
      if pdateLE sd d && pdateLE d ed then log :: filterLogsInRange sd ed rest
      else filterLogsInRange sd ed rest
    | none => filterLogsInRange sd ed rest

/-- Replace a habit's log with the filtered copy (the `deepcopy` of the
source is the identity in this pure model). -/
def withFilteredLog (sd ed : PDate) (h : Habit) : Habit :=
  { h with habit_log := filterLogsInRange sd ed h.habit_log }

/-- `_filter_habits_by_date_range`; `none` models the `ValueError` raised
when the range strings themselves do not parse. -/
def filter_habits_by_date_range (habits : List Habit) (start_date end_date : Str) :
    Option (List Habit) :=
  match parseDate start_date, parseDate end_date with
  | some sd, some ed =>
    some (((habits.map (withFilteredLog sd ed)).filter fun h => !h.habit_log.isEmpty))
  | _, _ => none

/-- `extract_last_days_logs` (generate_report.py lines 51-58): the list
comprehension evaluates `strptime` on every entry with no handler, so the
first malformed date aborts with `ValueError`. -/
def extract_last_days_logs (from_date today : PDate) : List HabitLog → Except Unit (List HabitLog)
  | [] => .ok []
  | log :: rest =>
    match parseDate log.date with
    | none => .error ()
    | some d =>
      match extract_last_days_logs from_date today rest with
      | .error e => .error e
      | .ok tl =>
        if pdateLE from_date d && pdateLE d today then .ok (log :: tl) else .ok tl

/-! ### Recommendation reconciler

The block shared by `src/app/main.py::_postprocess_recommendations`
(lines 177-232) and `src/api/generate_report.py::main` (lines 388-443).
A candidate entry is a JSON object with optional fields; a `habit_id`
that is absent or not an integer is `none` (both compare unequal to every
valid id, as in Python). -/

structure RecEntry where
  habit_id : Option Int
  name : Option Str
  start_time : Option Str
  end_time : Option Str
  day_of_week : Option (List Int)
deriving DecidableEq, Repr

/-- `parsed.get("recommendation", [])` can be absent, a non-list value, or
a list of entries. -/
inductive RecField
  | absent
  | notList
  | items (l : List RecEntry)
deriving DecidableEq, Repr

/-- The ordered valid ids (`valid_ids = [h.get("habit_id") for h in ...]`). -/
def validIds (habits : List Habit) : List Int := habits.map (·.habit_id)

/-- Python-dict insertion with in-place overwrite for an existing key. -/
def dictInsert (k : Int) (v : Str) : List (Int × Str) → List (Int × Str)
  | [] => [(k, v)]
  | (k', v') :: rest =>
    if k' = k then (k', v) :: rest else (k', v') :: dictInsert k v rest

/-- The loop building
`name_by_id = {h.get("habit_id"): h.get("name") for h in active_habits}`. -/
def nameByIdAux (acc : List (Int × Str)) : List Habit → List (Int × Str)
  | [] => acc
  | h :: rest => nameByIdAux (dictInsert h.habit_id h.name acc) rest

def nameById (habits : List Habit) : List (Int × Str) := nameByIdAux [] habits

/-- The exact-name scan of repair step (1): first `hid` whose name equals
the (nonempty) normalised candidate name. -/
def findByName (rname : Str) : List (Int × Str) → Option Int
  | [] => none
  | (hid, nm) :: rest =>
    if rname ≠ [] && rname = normName nm then some hid
    else findByName rname rest

/-- Repair step (1) for one entry (`_postprocess_recommendations`, lines
193-202).  `firstId` is `valid_ids[0]`; Python raises `IndexError` on an
empty habit list, a branch outside every claim (all of which require a
non-empty habit list), so the caller passes `(validIds habits).headD 0`. -/
def step1fix (valid : List Int) (nmap : List (Int × Str)) (firstId : Int)
    (r : RecEntry) : RecEntry :=
  match r.habit_id with
  | some rid =>
    if rid ∈ valid then r
    else { r with habit_id := some (((findByName (normName (r.name.getD [])) nmap)).getD firstId) }
  | none =>
    { r with habit_id := some (((findByName (normName (r.name.getD [])) nmap)).getD firstId) }

/-- One iteration of the step (2) loop: record a first-seen valid id. -/
def existingStep (valid : List Int) (acc : List (Int × RecEntry)) (r : RecEntry) :
    List (Int × RecEntry) :=
  match r.habit_id with
  | some rid =>
    if rid ∈ valid ∧ ∀ p ∈ acc, p.1 ≠ rid then acc ++ [(rid, r)] else acc
  | none => acc

def existingByIdAux (valid : List Int) (acc : List (Int × RecEntry)) :
    List RecEntry → List (Int × RecEntry)
  | [] => acc
  | r :: rest => existingByIdAux valid (existingStep valid acc r) rest

/-- Step (2): first-seen-wins map from valid id to entry (lines 205-209). -/
def existingById (valid : List Int) (recs : List RecEntry) : List (Int × RecEntry) :=
  existingByIdAux valid [] recs

/-- `(habit.get("start_time") or "00:00")` / `(... or "00:30")`. -/
def stDefault (h : Habit) : Str := if h.start_time = [] then strOf "00:00" else h.start_time
def etDefault (h : Habit) : Str := if h.end_time = [] then strOf "00:30" else h.end_time

/-- The synthesized fallback entry of step (2) (lines 211-228): keep the
start time, shorten the session by 15 minutes (min 10); on any parse
failure the `except` keeps the original end time. -/
def fallbackRec (hid : Int) (src : Habit) : RecEntry :=
  let st := stDefault src
  let et := etDefault src
  let new_end :=
    match parseHHMM st, parseHHMM et with
    | some a, some b =>
      let session : Int := max 10 (max ((b : Int) - (a : Int)) 0 - 15)
      fmtHHMM (((a : Int) + session).emod 1440).toNat
    | _, _ => et
  { habit_id := some hid
    name := some ((if src.name = [] then strOf "습관" else src.name) ++ strOf " (가벼운 버전)")
    start_time := some st
    end_time := some new_end
    day_of_week := some src.day_of_week }

/-- The `for hid in valid_ids` loop appending missing fallbacks (lines
211-228).  `habits.find?` mirrors `next(h for h in active_habits if ...)`;
its failure branch is Python's `StopIteration`, unreachable because every
processed id comes from `validIds habits`. -/
def addMissing (habits : List Habit) (exKeys : List Int) (recs : List RecEntry) :
    List Int → List RecEntry
  | [] => recs
  | hid :: rest =>
    if hid ∈ exKeys then addMissing habits exKeys recs rest
    else
      match habits.find? (fun h => h.habit_id == hid) with
      | some src => addMissing habits exKeys (recs ++ [fallbackRec hid src]) rest
      | none => addMissing habits exKeys recs rest

/-- `recs = parsed.get("recommendation", []); if not isinstance(recs, list):
recs = []`. -/
def recsOf : RecField → List RecEntry
  | .items l => l
  | _ => []

/-- The candidate list after repair step (1). -/
def repairedRecs (recField : RecField) (habits : List Habit) : List RecEntry :=
  (recsOf recField).map
    (step1fix (validIds habits) (nameById habits) ((validIds habits).headD 0))

/-- The ids for which a candidate entry survives into `existing_by_id`. -/
def reconcileExKeys (recField : RecField) (habits : List Habit) : List Int :=
  (existingById (validIds habits) (repairedRecs recField habits)).map Prod.fst

/-- The entry list after steps (1) and (2): repaired candidates plus the
appended fallbacks. -/
def reconcileRecsF (recField : RecField) (habits : List Habit) : List RecEntry :=
  addMissing habits (reconcileExKeys recField habits)
    (repairedRecs recField habits) (validIds habits)

/-- The whole reconciliation block: repair ids, collect first-seen entries,
synthesize missing ones, then emit one entry per habit in input order
(step (3), lines 231-232; a found entry is a non-empty dict, hence truthy). -/
def reconcile (recField : RecField) (habits : List Habit) : List RecEntry :=
  (validIds habits).filterMap fun hid =>
    (reconcileRecsF recField habits).find? fun r => r.habit_id == some hid

/-! ### Failure-reason attacher
(`_attach_habit_ids_to_failures`, src/app/main.py lines 235-267)

An element of `top_failure_reasons` can be a JSON object (with optional
`habit_id`, `habit`, `name`, `reasons` fields) or any non-dict value,
which the loop skips via `if not isinstance(it, dict): continue`. -/

inductive FailItem
  | obj (habit_id : Option Int) (habit : Option Str) (name : Option Str)
        (reasons : List Str)
  | raw (s : Str)
deriving DecidableEq, Repr

/-- The `habit_id` an item carries, if any. -/
def failItemId : FailItem → Option Int
  | .obj hid _ _ _ => hid
  | .raw _ => none

/-- String-keyed Python-dict insertion with in-place overwrite. -/
def dictInsertS (k : Str) (v : Int) : List (Str × Int) → List (Str × Int)
  | [] => [(k, v)]
  | (k', v') :: rest =>
    if k' = k then (k', v) :: rest else (k', v') :: dictInsertS k v rest

/-- The loop building `id_by_name_norm = {nm.strip().lower(): hid for
hid, nm in name_by_id.items() if nm}` (line 253). -/
def idByNameNormAux (acc : List (Str × Int)) : List (Int × Str) → List (Str × Int)
  | [] => acc
  | p :: rest =>
    idByNameNormAux (if p.2 ≠ [] then dictInsertS (normName p.2) p.1 acc else acc) rest

def idByNameNorm (habits : List Habit) : List (Str × Int) :=
  idByNameNormAux [] (nameById habits)

/-- Python dict `get` on the association list (keys are unique). -/
def lookupS (k : Str) : List (Str × Int) → Option Int
  | [] => none
  | (k', v) :: rest => if k' = k then some v else lookupS k rest

/-- Python's `in` on strings: contiguous-substring occurrence. -/
def isSubstr (n : Str) : Str → Bool
  | [] => n.isEmpty
  | c :: rest => n.isPrefixOf (c :: rest) || isSubstr n rest

/-- The substring-containment scan (lines 262-266): first entry whose
normalised habit name contains, or is contained in, the (nonempty) item
name. -/
def substrMatch (name : Str) : List (Str × Int) → Option Int
  | [] => none
  | (nm, hid) :: rest =>
    if name ≠ [] && (isSubstr name nm || isSubstr nm name) then some hid
    else substrMatch name rest

/-- `(it.get("habit") or it.get("name") or "")`. -/
def effName (habitAttr nameAttr : Option Str) : Str :=
  let a := habitAttr.getD []
  if a ≠ [] then a else nameAttr.getD []

/-- The per-item body of `_attach_habit_ids_to_failures` (lines 255-267). -/
def attachItem (valid : List Int) (inm : List (Str × Int)) (firstId : Int) :
    FailItem → FailItem
  | .raw s => .raw s
  | .obj hid hb nm rs =>
    match hid with
    | some v =>
      if v ∈ valid then .obj hid hb nm rs
      else
        let n := normName (effName hb nm)
        .obj (some (((lookupS n inm).orElse fun _ => substrMatch n inm).getD firstId)) hb nm rs
    | none =>
      let n := normName (effName hb nm)
      .obj (some (((lookupS n inm).orElse fun _ => substrMatch n inm).getD firstId)) hb nm rs

/-- The attacher applied to a `top_failure_reasons` list (the claim's
scope: the field is present and is a list; the singular-key and non-list
normalisations earlier in the function leave such a value untouched). -/
def attach_habit_ids_to_failures (items : List FailItem) (habits : List Habit) :
    List FailItem :=
  items.map (attachItem (validIds habits) (idByNameNorm habits) ((validIds habits).headD 0))

/-! Concrete sanity checks of the reconciler model. -/

def habA : Habit :=
  { habit_id := 1, name := strOf "아침 운동", day_of_week := [1, 3, 5]
    start_time := strOf "09:00", end_time := strOf "10:00", habit_log := [] }

def habB : Habit :=
  { habit_id := 2, name := strOf "독서", day_of_week := [2, 4]
    start_time := strOf "21:00", end_time := strOf "21:30", habit_log := [] }

example :
    (reconcile (.items []) [habA, habB]).map (·.habit_id) = [some 1, some 2] := by decide

example :
    (reconcile (.items []) [habA]).map (·.end_time) = [some (strOf "09:45")] := by decide

def recOnly2 : RecEntry :=
  { habit_id := some 2, name := none, start_time := none
    end_time := none, day_of_week := none }

def recForeignNamed : RecEntry :=
  { habit_id := some 99, name := some (strOf "아침 운동"), start_time := none
    end_time := none, day_of_week := none }

example :
    (reconcile (.items [recOnly2, recForeignNamed]) [habA, habB]).map (·.habit_id)
    = [some 1, some 2] := by decide

/-! ### Generic list helper lemmas -/

theorem headD_mem {α : Type} (l : List α) (d : α) (h : l ≠ []) : l.headD d ∈ l := by
  cases l with
  | nil => exact absurd rfl h
  | cons a t => simp [List.headD]

theorem map_eq_self {α : Type} (l : List α) (f : α → α) (h : ∀ x ∈ l, f x = x) :
    l.map f = l := by
  induction l with
  | nil => rfl
  | cons a t ih =>
    simp only [List.map_cons, h a (by simp)]
    rw [ih fun x hx => h x (by simp [hx])]

theorem filterMap_congr_mem {α β : Type} (l : List α) (f g : α → Option β)
    (h : ∀ a ∈ l, f a = g a) : l.filterMap f = l.filterMap g := by
  induction l with
  | nil => rfl
  | cons a t ih =>
    rw [List.filterMap_cons, List.filterMap_cons, h a (by simp),
      ih fun x hx => h x (by simp [hx])]

theorem find?_succeeds {α : Type} (l : List α) (p : α → Bool) (a : α)
    (ha : a ∈ l) (hp : p a = true) : ∃ b, l.find? p = some b ∧ p b = true := by
  induction l with
  | nil => cases ha
  | cons x t ih =>
    by_cases hx : p x = true
    · exact ⟨x, by rw [List.find?_cons_of_pos _ hx], hx⟩
    · rcases List.mem_cons.mp ha with rfl | hat
      · exact absurd hp hx
      · rcases ih hat with ⟨b, hb, hpb⟩
        refine ⟨b, ?_, hpb⟩
        rw [List.find?_cons_of_neg _ (by simpa using hx)]
        exact hb

theorem find?_eq_none_of_all {α : Type} (l : List α) (p : α → Bool)
    (h : ∀ a ∈ l, p a = false) : l.find? p = none := by
  induction l with
  | nil => rfl
  | cons x t ih =>
    rw [List.find?_cons_of_neg _ (by simp [h x (by simp)])]
    exact ih fun a ha => h a (by simp [ha])

theorem find?_append_left_none {α : Type} (l₁ l₂ : List α) (p : α → Bool)
    (h : l₁.find? p = none) : (l₁ ++ l₂).find? p = l₂.find? p := by
  induction l₁ with
  | nil => rfl
  | cons x t ih =>
    have hx : p x = false := by
      by_contra hc
      rw [List.find?_cons_of_pos _ (by simpa using hc)] at h
      cases h
    rw [List.cons_append, List.find?_cons_of_neg _ (by simp [hx])]
    exact ih (by rwa [List.find?_cons_of_neg _ (by simp [hx])] at h)

/-! ### Reconciler lemmas -/


theorem dictInsert_key_cases (k : Int) (v : Str) (l : List (Int × Str)) (p : Int × Str)
    (hp : p ∈ dictInsert k v l) : p.1 = k ∨ p ∈ l := by
  induction l with
  | nil =>
    simp only [dictInsert, List.mem_singleton] at hp
    exact Or.inl (by rw [hp])
  | cons q t ih =>
    obtain ⟨qk, qv⟩ := q
    simp only [dictInsert] at hp
    split at hp
    · rcases List.mem_cons.mp hp with rfl | hp
      · exact Or.inl (by assumption)
      · exact Or.inr (List.mem_cons_of_mem _ hp)
    · rcases List.mem_cons.mp hp with rfl | hp
      · exact Or.inr (List.mem_cons_self _ _)
      · rcases ih hp with h | h
        · exact Or.inl h
        · exact Or.inr (List.mem_cons_of_mem _ h)

theorem nameByIdAux_key_mem (habits : List Habit) (acc : List (Int × Str))
    (p : Int × Str) (hp : p ∈ nameByIdAux acc habits) :
    p ∈ acc ∨ p.1 ∈ validIds habits := by
  induction habits generalizing acc with
  | nil => simp only [nameByIdAux] at hp; exact Or.inl hp
  | cons h t ih =>
    simp only [nameByIdAux] at hp
    rcases ih (dictInsert h.habit_id h.name acc) hp with hi | hi
    · rcases dictInsert_key_cases _ _ _ _ hi with he | he
      · exact Or.inr (by simp [validIds, he])
      · exact Or.inl he
    · refine Or.inr ?_
      simp only [validIds, List.map_cons, List.mem_cons]
      exact Or.inr (by simpa [validIds] using hi)

theorem nameById_key_mem (habits : List Habit) (p : Int × Str)
    (hp : p ∈ nameById habits) : p.1 ∈ validIds habits := by
  rcases nameByIdAux_key_mem habits [] p hp with h | h
  · cases h
  · exact h

theorem findByName_mem_keys (rn : Str) (l : List (Int × Str)) (hid : Int)
    (h : findByName rn l = some hid) : ∃ nm, (hid, nm) ∈ l := by
  induction l with
  | nil => cases h
  | cons q t ih =>
    obtain ⟨qk, qv⟩ := q
    simp only [findByName] at h
    split at h
    · refine ⟨qv, ?_⟩
      simp only [Option.some.injEq] at h
      rw [← h]
      exact List.mem_cons_self _ _
    · rcases ih h with ⟨nm, hnm⟩
      exact ⟨nm, List.mem_cons_of_mem _ hnm⟩

theorem validIds_ne_nil (habits : List Habit) (hne : habits ≠ []) :
    validIds habits ≠ [] := by
  cases habits with
  | nil => exact absurd rfl hne
  | cons a t => simp [validIds]

/-- After repair step (1), every entry carries a valid id. -/
theorem step1fix_valid (habits : List Habit) (hne : habits ≠ []) (r : RecEntry) :
    ∃ id, (step1fix (validIds habits) (nameById habits)
        ((validIds habits).headD 0) r).habit_id = some id ∧ id ∈ validIds habits := by
  have hhead : (validIds habits).headD 0 ∈ validIds habits :=
    headD_mem _ _ (validIds_ne_nil habits hne)
  cases hr : r.habit_id with
  | none =>
    cases hf : findByName (normName (r.name.getD [])) (nameById habits) with
    | none => exact ⟨(validIds habits).headD 0, by simp [step1fix, hr, hf], hhead⟩
    | some hid =>
      rcases findByName_mem_keys _ _ _ hf with ⟨nm, hnm⟩
      exact ⟨hid, by simp [step1fix, hr, hf], nameById_key_mem habits (hid, nm) hnm⟩
  | some rid =>
    by_cases hmem : rid ∈ validIds habits
    · exact ⟨rid, by simp [step1fix, hr, hmem], hmem⟩
    · cases hf : findByName (normName (r.name.getD [])) (nameById habits) with
      | none => exact ⟨(validIds habits).headD 0, by simp [step1fix, hr, hmem, hf], hhead⟩
      | some hid =>
        rcases findByName_mem_keys _ _ _ hf with ⟨nm, hnm⟩
        exact ⟨hid, by simp [step1fix, hr, hmem, hf], nameById_key_mem habits (hid, nm) hnm⟩

/-- If an entry's id is already valid, repair step (1) leaves it alone. -/
theorem step1fix_id_of_valid (valid : List Int) (nmap : List (Int × Str))
    (firstId : Int) (r : RecEntry) (id : Int) (hr : r.habit_id = some id)
    (hv : id ∈ valid) : step1fix valid nmap firstId r = r := by
  simp [step1fix, hr, hv]

theorem existingStep_mem (valid : List Int) (acc : List (Int × RecEntry))
    (r : RecEntry) (p : Int × RecEntry) (hp : p ∈ existingStep valid acc r) :
    p ∈ acc ∨ (p.2 = r ∧ r.habit_id = some p.1) := by
  cases hr : r.habit_id with
  | none =>
    simp only [existingStep, hr] at hp
    exact Or.inl hp
  | some rid =>
    simp only [existingStep, hr] at hp
    split at hp
    · rcases List.mem_append.mp hp with h | h
      · exact Or.inl h
      · simp only [List.mem_singleton] at h
        subst h
        exact Or.inr ⟨rfl, by simp [hr]⟩
    · exact Or.inl hp

theorem existingStep_super (valid : List Int) (acc : List (Int × RecEntry))
    (r : RecEntry) (p : Int × RecEntry) (hp : p ∈ acc) :
    p ∈ existingStep valid acc r := by
  cases hr : r.habit_id with
  | none => simpa only [existingStep, hr] using hp
  | some rid =>
    simp only [existingStep, hr]
    split
    · exact List.mem_append.mpr (Or.inl hp)
    · exact hp

theorem existingStep_keys_super (valid : List Int) (acc : List (Int × RecEntry))
    (r : RecEntry) (hid : Int) (h : hid ∈ acc.map Prod.fst) :
    hid ∈ (existingStep valid acc r).map Prod.fst := by
  rcases List.mem_map.mp h with ⟨p, hp, he⟩
  exact List.mem_map.mpr ⟨p, existingStep_super valid acc r p hp, he⟩

/-- Soundness of the first-seen map: each recorded pair comes from the list
and carries the recorded id. -/
theorem existingByIdAux_mem (valid : List Int) (recs : List RecEntry)
    (acc : List (Int × RecEntry)) (p : Int × RecEntry)
    (hp : p ∈ existingByIdAux valid acc recs) :
    p ∈ acc ∨ (p.2 ∈ recs ∧ p.2.habit_id = some p.1) := by
  induction recs generalizing acc with
  | nil => simp only [existingByIdAux] at hp; exact Or.inl hp
  | cons r rest ih =>
    simp only [existingByIdAux] at hp
    rcases ih (existingStep valid acc r) hp with hi | hi
    · rcases existingStep_mem valid acc r p hi with h | h
      · exact Or.inl h
      · exact Or.inr ⟨by rw [h.1]; exact List.mem_cons_self _ _, by rw [h.1]; exact h.2⟩
    · exact Or.inr ⟨List.mem_cons_of_mem _ hi.1, hi.2⟩

theorem existingById_sound (valid : List Int) (recs : List RecEntry)
    (p : Int × RecEntry) (hp : p ∈ existingById valid recs) :
    p.2 ∈ recs ∧ p.2.habit_id = some p.1 := by
  rcases existingByIdAux_mem valid recs [] p hp with h | h
  · cases h
  · exact h

/-- Keys are only ever appended by the step (2) loop. -/
theorem existingByIdAux_keys_mono (valid : List Int) (recs : List RecEntry)
    (acc : List (Int × RecEntry)) (hid : Int) (h : hid ∈ acc.map Prod.fst) :
    hid ∈ (existingByIdAux valid acc recs).map Prod.fst := by
  induction recs generalizing acc with
  | nil => simpa only [existingByIdAux] using h
  | cons r rest ih =>
    simp only [existingByIdAux]
    exact ih (existingStep valid acc r) (existingStep_keys_super valid acc r hid h)

/-- Completeness of the first-seen map: a valid id carried by some entry
ends up among the keys. -/
theorem existingByIdAux_complete (valid : List Int) (recs : List RecEntry)
    (acc : List (Int × RecEntry)) (hid : Int) (r : RecEntry)
    (hval : hid ∈ valid) (hrec : r ∈ recs) (hr : r.habit_id = some hid) :
    hid ∈ (existingByIdAux valid acc recs).map Prod.fst := by
  induction recs generalizing acc with
  | nil => cases hrec
  | cons r0 rest ih =>
    rcases List.mem_cons.mp hrec with rfl | hmem
    · simp only [existingByIdAux]
      apply existingByIdAux_keys_mono
      by_cases hin : ∀ p ∈ acc, p.1 ≠ hid
      · simp only [existingStep, hr]
        rw [if_pos ⟨hval, hin⟩]
        simp
      · push_neg at hin
        rcases hin with ⟨p, hpmem, hpk⟩
        exact existingStep_keys_super valid acc r hid (List.mem_map.mpr ⟨p, hpmem, hpk⟩)
    · simp only [existingByIdAux]
      exact ih (existingStep valid acc r0) hmem

theorem existingById_complete (valid : List Int) (recs : List RecEntry)
    (hid : Int) (r : RecEntry) (hval : hid ∈ valid) (hrec : r ∈ recs)
    (hr : r.habit_id = some hid) :
    hid ∈ (existingById valid recs).map Prod.fst :=
  existingByIdAux_complete valid recs [] hid r hval hrec hr

/-- The step (3) loop only appends to the entry list. -/
theorem addMissing_mono (habits : List Habit) (ex : List Int) (recs : List RecEntry)
    (l : List Int) (r : RecEntry) (hr : r ∈ recs) : r ∈ addMissing habits ex recs l := by
  induction l generalizing recs with
  | nil => simpa only [addMissing] using hr
  | cons a t ih =>
    simp only [addMissing]
    split
    · exact ih recs hr
    · cases hfind : habits.find? (fun h => h.habit_id == a) with
      | none => simp only [hfind]; exact ih recs hr
      | some src => simp only [hfind]; exact ih _ (List.mem_append_left _ hr)

theorem find?_habit_exists (habits : List Habit) (hid : Int)
    (h : hid ∈ validIds habits) :
    ∃ src, habits.find? (fun x => x.habit_id == hid) = some src := by
  induction habits with
  | nil => simp [validIds] at h
  | cons a t ih =>
    by_cases ha : a.habit_id = hid
    · exact ⟨a, List.find?_cons_of_pos _ (by simp [ha])⟩
    · simp only [validIds, List.map_cons, List.mem_cons] at h
      rcases h with h | h
      · exact absurd h.symm ha
      · rcases ih h with ⟨src, hsrc⟩
        refine ⟨src, ?_⟩
        rw [List.find?_cons_of_neg _ (by simp [ha])]
        exact hsrc

/-- After the step (3) loop, every processed valid id is carried by some
entry. -/
theorem addMissing_covers (habits : List Habit) (ex : List Int)
    (recs : List RecEntry) (l : List Int) (hid : Int) (hmem : hid ∈ l)
    (hsub : ∀ a ∈ l, a ∈ validIds habits)
    (hex : hid ∈ ex → ∃ r ∈ recs, r.habit_id = some hid) :
    ∃ r ∈ addMissing habits ex recs l, r.habit_id = some hid := by
  induction l generalizing recs with
  | nil => cases hmem
  | cons a t ih =>
    simp only [addMissing]
    rcases List.mem_cons.mp hmem with heq | hmem'
    · subst heq
      by_cases ha : hid ∈ ex
      · rw [if_pos ha]
        rcases hex ha with ⟨r, hr, hrid⟩
        exact ⟨r, addMissing_mono habits ex recs t r hr, hrid⟩
      · rw [if_neg ha]
        rcases find?_habit_exists habits hid (hsub hid (List.mem_cons_self _ _)) with ⟨src, hsrc⟩
        simp only [hsrc]
        refine ⟨fallbackRec hid src, ?_, by simp [fallbackRec]⟩
        exact addMissing_mono habits ex _ t _ (List.mem_append_right _ (by simp))
    · by_cases ha : a ∈ ex
      · rw [if_pos ha]
        exact ih recs hmem' (fun x hx => hsub x (List.mem_cons_of_mem _ hx)) hex
      · rw [if_neg ha]
        rcases find?_habit_exists habits a (hsub a (List.mem_cons_self _ _)) with ⟨src, hsrc⟩
        simp only [hsrc]
        refine ih _ hmem' (fun x hx => hsub x (List.mem_cons_of_mem _ hx)) ?_
        intro hhid
        rcases hex hhid with ⟨r, hr, hrid⟩
        exact ⟨r, List.mem_append_left _ hr, hrid⟩

/-- Evaluating a `filterMap` whose function always succeeds and returns an
entry carrying the queried id. -/
theorem filterMap_find_spec (ids : List Int) (f : Int → Option RecEntry)
    (h : ∀ a ∈ ids, ∃ r, f a = some r ∧ r.habit_id = some a) :
    (ids.filterMap f).map (fun r => r.habit_id) = ids.map some ∧
    ∀ i : Nat, (ids.filterMap f)[i]? = ids[i]?.bind f := by
  induction ids with
  | nil => exact ⟨rfl, fun i => by simp⟩
  | cons a t ih =>
    rcases h a (List.mem_cons_self _ _) with ⟨r, hfa, hra⟩
    have ht := ih fun x hx => h x (List.mem_cons_of_mem _ hx)
    rw [List.filterMap_cons, hfa]
    refine ⟨by simp [hra, ht.1], fun i => ?_⟩
    cases i with
    | zero => simp [hfa]
    | succ n => simpa using ht.2 n

/-- When every processed id is already covered, step (3) appends nothing. -/
theorem addMissing_noop (habits : List Habit) (ex : List Int)
    (recs : List RecEntry) (l : List Int) (h : ∀ hid ∈ l, hid ∈ ex) :
    addMissing habits ex recs l = recs := by
  induction l with
  | nil => rfl
  | cons a t ih =>
    simp only [addMissing]
    rw [if_pos (h a (List.mem_cons_self _ _))]
    exact ih fun x hx => h x (List.mem_cons_of_mem _ hx)

/-- After steps (1)-(3) every valid id is carried by some entry. -/
theorem reconcileRecsF_covers (rf : RecField) (habits : List Habit) :
    ∀ a ∈ validIds habits, ∃ r ∈ reconcileRecsF rf habits, r.habit_id = some a := by
  intro a ha
  apply addMissing_covers _ _ _ _ _ ha (fun x hx => hx)
  intro hex
  rcases List.mem_map.mp hex with ⟨p, hp, hpk⟩
  have hs := existingById_sound _ _ p hp
  refine ⟨p.2, hs.1, ?_⟩
  rw [← hpk]
  exact hs.2

/-- The step (3) lookup succeeds for every valid id and returns an entry
carrying that id. -/
theorem reconcile_find (rf : RecField) (habits : List Habit) :
    ∀ a ∈ validIds habits,
      ∃ r, ((reconcileRecsF rf habits).find? fun x => x.habit_id == some a) = some r ∧
        r.habit_id = some a := by
  intro a ha
  rcases reconcileRecsF_covers rf habits a ha with ⟨r0, hr0, hid0⟩
  rcases find?_succeeds (reconcileRecsF rf habits) (fun x => x.habit_id == some a) r0 hr0
      (by show (r0.habit_id == some a) = true; rw [hid0]; simp) with ⟨r, hfind, hpr⟩
  exact ⟨r, hfind, eq_of_beq hpr⟩

/-- The reconciled output carries exactly the valid ids, in order. -/
theorem reconcile_map_ids (rf : RecField) (habits : List Habit) :
    (reconcile rf habits).map (fun r => r.habit_id) = (validIds habits).map some :=
  (filterMap_find_spec _ _ (reconcile_find rf habits)).1

/-- C1: the reconciler emits exactly one entry per active habit, in input
order, with matching ids - for any candidate `recommendation` value. -/
theorem C1_reconciler_alignment (rf : RecField) (habits : List Habit)
    (hne : habits ≠ [])
    (hdist : habits.Pairwise fun x y => x.habit_id ≠ y.habit_id) :
    (reconcile rf habits).length = habits.length ∧
    ∀ i : Nat, ((reconcile rf habits)[i]?).map (fun r => r.habit_id)
      = (habits[i]?).map fun h => some h.habit_id := by
  have hmap := reconcile_map_ids rf habits
  constructor
  · have hlen := congrArg List.length hmap
    simpa [validIds] using hlen
  · intro i
    have h1 : ((reconcile rf habits)[i]?).map (fun r => r.habit_id)
        = ((reconcile rf habits).map fun r => r.habit_id)[i]? := by
      simp [List.getElem?_map]
    rw [h1, hmap]
    simp [validIds, List.getElem?_map]
    cases habits[i]? <;> simp

/-- Witness for C1 at a concrete input: one foreign-id entry against two
habits still yields two aligned entries. -/
theorem C1_reconciler_alignment_witness :
    (reconcile (RecField.items [recForeignNamed]) [habA, habB]).length = 2 ∧
    ((reconcile (RecField.items [recForeignNamed]) [habA, habB])[0]?).map
      (fun r => r.habit_id) = some (some 1) := by
  have h := C1_reconciler_alignment (RecField.items [recForeignNamed]) [habA, habB]
    (by decide) (by decide)
  refine ⟨by simpa using h.1, ?_⟩
  have h0 := h.2 0
  simpa [habA] using h0

/-- Looking each id of an aligned list back up by `find?` reproduces the
list, when the ids are distinct. -/
theorem filterMap_find_self (out : List RecEntry) (ids : List Int)
    (hmap : out.map (fun r => r.habit_id) = ids.map some) (hnd : ids.Nodup) :
    ids.filterMap (fun hid => out.find? fun r => r.habit_id == some hid) = out := by
  induction out generalizing ids with
  | nil =>
    cases ids with
    | nil => rfl
    | cons a t => simp at hmap
  | cons r out' ih =>
    cases ids with
    | nil => simp at hmap
    | cons a t =>
      simp only [List.map_cons, List.cons.injEq] at hmap
      obtain ⟨hra, hmap'⟩ := hmap
      have hnd' := List.nodup_cons.mp hnd
      rw [List.filterMap_cons]
      have hfa : (List.find? (fun x => x.habit_id == some a) (r :: out')) = some r :=
        List.find?_cons_of_pos _ (by simp [hra])
      rw [hfa]
      have hcong : ∀ b ∈ t,
          (fun hid => List.find? (fun x => x.habit_id == some hid) (r :: out')) b
            = (fun hid => List.find? (fun x => x.habit_id == some hid) out') b := by
        intro b hb
        have hneq : a ≠ b := fun he => hnd'.1 (he ▸ hb)
        exact List.find?_cons_of_neg _ (by simp [hra, hneq])
      rw [filterMap_congr_mem t _ _ hcong, ih t hmap' hnd'.2]

/-- C2: re-running the reconciler on its own output is the identity. -/
theorem C2_reconciler_idempotent (rf : RecField) (habits : List Habit)
    (hne : habits ≠ [])
    (hdist : habits.Pairwise fun x y => x.habit_id ≠ y.habit_id) :
    reconcile (RecField.items (reconcile rf habits)) habits = reconcile rf habits := by
  have hmap : (reconcile rf habits).map (fun r => r.habit_id)
      = (validIds habits).map some := reconcile_map_ids rf habits
  have hvalid_entries : ∀ r ∈ reconcile rf habits,
      ∃ id ∈ validIds habits, r.habit_id = some id := by
    intro r hr
    have hm : r.habit_id ∈ (reconcile rf habits).map (fun r => r.habit_id) :=
      List.mem_map_of_mem _ hr
    rw [hmap] at hm
    rcases List.mem_map.mp hm with ⟨id, hid, he⟩
    exact ⟨id, hid, he.symm⟩
  have hstep1 : repairedRecs (RecField.items (reconcile rf habits)) habits
      = reconcile rf habits := by
    unfold repairedRecs recsOf
    apply map_eq_self
    intro r hr
    rcases hvalid_entries r hr with ⟨id, hidv, hrid⟩
    exact step1fix_id_of_valid _ _ _ r id hrid hidv
  have hexcover : ∀ hid ∈ validIds habits,
      hid ∈ reconcileExKeys (RecField.items (reconcile rf habits)) habits := by
    intro hid hv
    have hm : some hid ∈ (reconcile rf habits).map fun r => r.habit_id := by
      rw [hmap]
      exact List.mem_map_of_mem _ hv
    rcases List.mem_map.mp hm with ⟨r, hrmem, hrid⟩
    unfold reconcileExKeys
    rw [hstep1]
    exact existingById_complete _ _ hid r hv hrmem hrid
  have hF : reconcileRecsF (RecField.items (reconcile rf habits)) habits
      = reconcile rf habits := by
    unfold reconcileRecsF
    rw [hstep1]
    exact addMissing_noop _ _ _ _ hexcover
  have hnodup : (validIds habits).Nodup := by
    unfold validIds
    exact List.pairwise_map.mpr hdist
  show (validIds habits).filterMap
      (fun hid => (reconcileRecsF (RecField.items (reconcile rf habits)) habits).find?
        fun r => r.habit_id == some hid) = reconcile rf habits
  rw [hF]
  exact filterMap_find_self (reconcile rf habits) (validIds habits) hmap hnodup

/-- Witness for C2 at a concrete input. -/
theorem C2_reconciler_idempotent_witness :
    reconcile (RecField.items (reconcile (RecField.items [recForeignNamed]) [habA, habB]))
      [habA, habB]
    = reconcile (RecField.items [recForeignNamed]) [habA, habB] :=
  C2_reconciler_idempotent (RecField.items [recForeignNamed]) [habA, habB]
    (by decide) (by decide)

/-- The entries appended by the step (3) loop, in processing order. -/
def addedFor (habits : List Habit) (ex : List Int) : List Int → List RecEntry
  | [] => []
  | hid :: rest =>
    if hid ∈ ex then addedFor habits ex rest
    else
      match habits.find? (fun h => h.habit_id == hid) with
      | some src => fallbackRec hid src :: addedFor habits ex rest
      | none => addedFor habits ex rest

theorem addMissing_eq_append (habits : List Habit) (ex : List Int)
    (recs : List RecEntry) (l : List Int) :
    addMissing habits ex recs l = recs ++ addedFor habits ex l := by
  induction l generalizing recs with
  | nil => simp [addMissing, addedFor]
  | cons a t ih =>
    simp only [addMissing, addedFor]
    split
    · rw [ih recs]
    · cases hf : habits.find? (fun h => h.habit_id == a) with
      | none => simp only [hf]; rw [ih recs]
      | some src =>
        simp only [hf]
        rw [ih (recs ++ [fallbackRec a src]), List.append_assoc]
        rfl

theorem addedFor_find (habits : List Habit) (ex : List Int) (l : List Int)
    (hid : Int) (src : Habit) (hmem : hid ∈ l) (hnex : hid ∉ ex)
    (hsrc : habits.find? (fun h => h.habit_id == hid) = some src)
    (hnd : l.Nodup) :
    (addedFor habits ex l).find? (fun r => r.habit_id == some hid)
      = some (fallbackRec hid src) := by
  induction l with
  | nil => cases hmem
  | cons a t ih =>
    have hnd' := List.nodup_cons.mp hnd
    simp only [addedFor]
    rcases List.mem_cons.mp hmem with heq | hmem'
    · subst heq
      rw [if_neg hnex, hsrc]
      exact List.find?_cons_of_pos _ (by simp [fallbackRec])
    · have hne : a ≠ hid := fun he => hnd'.1 (he ▸ hmem')
      by_cases ha : a ∈ ex
      · rw [if_pos ha]
        exact ih hmem' hnd'.2
      · rw [if_neg ha]
        cases hf : habits.find? (fun h => h.habit_id == a) with
        | none => simp only [hf]; exact ih hmem' hnd'.2
        | some src2 =>
          simp only [hf]
          rw [List.find?_cons_of_neg _ (by simp [fallbackRec, hne])]
          exact ih hmem' hnd'.2

/-- With pairwise-distinct ids the positional habit is exactly the one the
fallback loop looks up. -/
theorem find?_habit_self (habits : List Habit)
    (hdist : habits.Pairwise fun x y => x.habit_id ≠ y.habit_id)
    (i : Nat) (h : Habit) (hget : habits[i]? = some h) :
    habits.find? (fun x => x.habit_id == h.habit_id) = some h := by
  induction habits generalizing i with
  | nil => simp at hget
  | cons a t ih =>
    cases i with
    | zero =>
      simp only [List.getElem?_cons_zero, Option.some.injEq] at hget
      subst hget
      exact List.find?_cons_of_pos _ (by simp)
    | succ n =>
      simp only [List.getElem?_cons_succ] at hget
      have hmem : h ∈ t := by
        rcases List.getElem?_eq_some.mp hget with ⟨hlt, heq⟩
        exact heq ▸ List.getElem_mem hlt
      have hne : a.habit_id ≠ h.habit_id := (List.pairwise_cons.mp hdist).1 h hmem
      rw [List.find?_cons_of_neg _ (by simp [hne])]
      exact ih (List.pairwise_cons.mp hdist).2 n hget

/-- C4 (amended): when - after the id-repair step - no candidate entry
carries a habit's id, the reconciler emits the synthesized fallback at that
habit's position: start_time unchanged and end_time = start_time plus
max(10, session - 15) minutes, modulo 24h. -/
theorem C4_fallback_schedule (rf : RecField) (habits : List Habit) (i : Nat)
    (h : Habit) (a b : Nat)
    (hne : habits ≠ [])
    (hdist : habits.Pairwise fun x y => x.habit_id ≠ y.habit_id)
    (hget : habits[i]? = some h)
    (hmiss : some h.habit_id ∉ (repairedRecs rf habits).map fun r => r.habit_id)
    (hst : parseHHMM (stDefault h) = some a)
    (het : parseHHMM (etDefault h) = some b) :
    (reconcile rf habits)[i]? = some (fallbackRec h.habit_id h) ∧
    (fallbackRec h.habit_id h).start_time = some (stDefault h) ∧
    (fallbackRec h.habit_id h).end_time =
      some (fmtHHMM (((a : Int) + max 10 (max ((b : Int) - (a : Int)) 0 - 15)).emod 1440).toNat) := by
  have hhmem : h ∈ habits := by
    rcases List.getElem?_eq_some.mp hget with ⟨hlt, heq⟩
    exact heq ▸ List.getElem_mem hlt
  have hidmem : h.habit_id ∈ validIds habits := List.mem_map_of_mem _ hhmem
  have hrecs1 : ∀ r ∈ repairedRecs rf habits,
      ((fun x => x.habit_id == some h.habit_id) r) = false := by
    intro r hr
    show (r.habit_id == some h.habit_id) = false
    cases hb : r.habit_id == some h.habit_id
    · rfl
    · exact absurd ((eq_of_beq hb) ▸ List.mem_map_of_mem (fun r => r.habit_id) hr) hmiss
  have hnex : h.habit_id ∉ reconcileExKeys rf habits := by
    intro hc
    rcases List.mem_map.mp hc with ⟨p, hp, hpk⟩
    have hs := existingById_sound _ _ p hp
    apply hmiss
    have : p.2.habit_id = some h.habit_id := by rw [hs.2, hpk]
    exact this ▸ List.mem_map_of_mem _ hs.1
  have hsrc := find?_habit_self habits hdist i h hget
  have hnodup : (validIds habits).Nodup := List.pairwise_map.mpr hdist
  have hfindF : (reconcileRecsF rf habits).find?
      (fun x => x.habit_id == some h.habit_id) = some (fallbackRec h.habit_id h) := by
    unfold reconcileRecsF
    rw [addMissing_eq_append,
      find?_append_left_none _ _ _ (find?_eq_none_of_all _ _ hrecs1)]
    exact addedFor_find habits _ (validIds habits) h.habit_id h hidmem hnex hsrc hnodup
  have spec := filterMap_find_spec (validIds habits) _ (reconcile_find rf habits)
  have hi : (reconcile rf habits)[i]? = ((validIds habits)[i]?).bind
      (fun hid => (reconcileRecsF rf habits).find? fun r => r.habit_id == some hid) :=
    spec.2 i
  have hvi : (validIds habits)[i]? = some h.habit_id := by
    unfold validIds
    rw [List.getElem?_map, hget]
    rfl
  refine ⟨?_, by simp [fallbackRec], by simp [fallbackRec, hst, het]⟩
  rw [hi, hvi]
  exact hfindF

/-- Witness for C4 at the spec's example: start 09:00, end 10:00, empty
candidate list: the fallback ends at 09:45. -/
theorem C4_fallback_schedule_witness :
    (reconcile (RecField.items []) [habA])[0]? = some (fallbackRec 1 habA) ∧
    (fallbackRec 1 habA).end_time = some (strOf "09:45") := by
  have h := C4_fallback_schedule (RecField.items []) [habA] 0 habA 540 600
    (by decide) (by decide) (by decide) (by decide) (by decide) (by decide)
  exact ⟨h.1, by decide⟩

/-- C4 counterexample to the claim as stated: habit 1 has no candidate
entry carrying its id, and its times parse, yet the entry emitted for it is
the repaired foreign entry (end 12:00), not a synthesized fallback ending
at 09:45. -/
def recForeign1100 : RecEntry :=
  { habit_id := some 99, name := some (strOf "명상")
    start_time := some (strOf "11:00"), end_time := some (strOf "12:00")
    day_of_week := some [1] }

theorem C4_claim_counterexample :
    recForeign1100.habit_id ≠ some habA.habit_id ∧
    parseHHMM habA.start_time = some 540 ∧ parseHHMM habA.end_time = some 600 ∧
    ((reconcile (RecField.items [recForeign1100]) [habA]).map fun r => r.end_time)
      = [some (strOf "12:00")] ∧
    some (strOf "12:00") ≠ some (strOf "09:45") := by decide

/-- C5 (amended): when either normalized time string fails the `HH:MM`
parse (e.g. `HH:MM:SS` input), the synthesized fallback keeps the habit's
original end_time: no 15-minute reduction is applied. -/
theorem C5_hhmmss_rejected (hid : Int) (src : Habit)
    (h : parseHHMM (stDefault src) = none ∨ parseHHMM (etDefault src) = none) :
    (fallbackRec hid src).start_time = some (stDefault src) ∧
    (fallbackRec hid src).end_time = some (etDefault src) := by
  refine ⟨by simp [fallbackRec], ?_⟩
  rcases h with h | h
  · simp [fallbackRec, h]
  · cases h2 : parseHHMM (stDefault src) with
    | none => simp [fallbackRec, h2]
    | some a => simp [fallbackRec, h2, h]

def habSec : Habit :=
  { habit_id := 3, name := strOf "요가", day_of_week := [1]
    start_time := strOf "09:00:00", end_time := strOf "10:00:00", habit_log := [] }

/-- Witness for C5 (amended) at the `HH:MM:SS` habit. -/
theorem C5_hhmmss_rejected_witness :
    (fallbackRec 3 habSec).start_time = some (strOf "09:00:00") ∧
    (fallbackRec 3 habSec).end_time = some (strOf "10:00:00") := by
  have h := C5_hhmmss_rejected 3 habSec (Or.inl (by decide))
  exact ⟨h.1.trans (by decide), h.2.trans (by decide)⟩

/-- C5 counterexample to the claim as stated: `HH:MM:SS` is rejected by the
time parser (not normalized), and the fallback for such a habit keeps the
original end time instead of applying the 15-minute reduction. -/
theorem C5_claim_counterexample :
    parseHHMM (strOf "09:00:00") = none ∧
    ((reconcile (RecField.items []) [habSec]).map fun r => r.end_time)
      = [some (strOf "10:00:00")] ∧
    some (strOf "10:00:00") ≠ some (strOf "09:45:00") := by decide

/-! ### Extractor lemmas (C3) -/

theorem matchFenced_none_of_no_brace (tag : Str) (s : Str) (hnb : openBrace ∉ s) :
    matchFenced tag s = none := by
  unfold matchFenced
  split
  case isTrue hp =>
    cases hd : (s.drop tag.length).dropWhile pyIsSpace with
    | nil => rfl
    | cons c body =>
      by_cases hc : c = openBrace
      · exfalso
        apply hnb
        rw [← hc]
        have h1 : c ∈ (s.drop tag.length).dropWhile pyIsSpace := by
          rw [hd]; exact List.mem_cons_self _ _
        have h2 : c ∈ s.drop tag.length := (List.dropWhile_sublist _).subset h1
        exact (List.drop_sublist _ _).subset h2
      · simp [hc]
  case isFalse => rfl

theorem searchFenced_none_of_no_brace (tag : Str) (s : Str) (hnb : openBrace ∉ s) :
    searchFenced tag s = none := by
  induction s with
  | nil => simp [searchFenced, matchFenced_none_of_no_brace tag [] hnb]
  | cons c rest ih =>
    simp only [searchFenced, matchFenced_none_of_no_brace tag (c :: rest) hnb]
    exact ih fun hm => hnb (List.mem_cons_of_mem _ hm)

theorem fromFirstBrace_none_of_no_brace (s : Str) (hnb : openBrace ∉ s) :
    fromFirstBrace s = none := by
  induction s with
  | nil => rfl
  | cons c rest ih =>
    have hc : c ≠ openBrace := fun he => hnb (he ▸ List.mem_cons_self _ _)
    simp only [fromFirstBrace, if_neg hc]
    exact ih fun hm => hnb (List.mem_cons_of_mem _ hm)

/-- C3: the extractor is total (always yields a string), and whenever all
three strategies fail - in particular whenever the text contains no `\x7b`
at all - it returns the trimmed input unchanged. -/
theorem C3_extractor_fallback (s : Str) :
    (searchFenced tagJson s = none → searchFenced fenceLit s = none →
      fromFirstBrace s = none → extract_json_safely s = pyStrip s) ∧
    (openBrace ∉ s → extract_json_safely s = pyStrip s) := by
  constructor
  · intro h1 h2 h3
    simp [extract_json_safely, h1, h2, h3]
  · intro hnb
    simp [extract_json_safely, searchFenced_none_of_no_brace _ _ hnb,
      fromFirstBrace_none_of_no_brace _ hnb]

/-- Witness for C3: a brace-free, fence-free reply comes back trimmed. -/
theorem C3_extractor_fallback_witness :
    extract_json_safely (strOf "  hello there ") = pyStrip (strOf "  hello there ") ∧
    extract_json_safely (strOf "  hello there ") = strOf "hello there" := by
  have h := (C3_extractor_fallback (strOf "  hello there ")).2 (by decide)
  exact ⟨h, h.trans (by decide)⟩

/-! ### Classifier lemmas (C7, C6) -/

theorem findRuleLabel_first (t : Str) (rules : List (List RuleAlt × Str)) (i : Nat)
    (ru : List RuleAlt × Str) (hget : rules[i]? = some ru)
    (hmatch : matchRule ru.1 t = true)
    (hbefore : ∀ j, j < i → ∀ ru2, rules[j]? = some ru2 → matchRule ru2.1 t = false) :
    findRuleLabel t rules = some ru.2 := by
  induction rules generalizing i with
  | nil => simp at hget
  | cons r0 rest ih =>
    cases i with
    | zero =>
      simp only [List.getElem?_cons_zero, Option.some.injEq] at hget
      subst hget
      obtain ⟨alts, lbl⟩ := r0
      simp only [findRuleLabel]
      rw [if_pos hmatch]
    | succ n =>
      simp only [List.getElem?_cons_succ] at hget
      obtain ⟨alts0, lbl0⟩ := r0
      have h0 : matchRule alts0 t = false :=
        hbefore 0 (Nat.succ_pos n) (alts0, lbl0) (by simp)
      simp only [findRuleLabel, h0]
      exact ih n hget fun j hj ru2 hju =>
        hbefore (j + 1) (Nat.succ_lt_succ hj) ru2 (by simpa using hju)

theorem findRuleLabel_none (t : Str) (rules : List (List RuleAlt × Str))
    (h : ∀ ru ∈ rules, matchRule ru.1 t = false) : findRuleLabel t rules = none := by
  induction rules with
  | nil => rfl
  | cons r0 rest ih =>
    obtain ⟨alts0, lbl0⟩ := r0
    have h0 : matchRule alts0 t = false := h (alts0, lbl0) (List.mem_cons_self _ _)
    simp only [findRuleLabel, h0]
    exact ih fun ru hru => h ru (List.mem_cons_of_mem _ hru)

theorem findRuleLabel_mem (t : Str) (rules : List (List RuleAlt × Str)) (lbl : Str)
    (h : findRuleLabel t rules = some lbl) : lbl ∈ rules.map Prod.snd := by
  induction rules with
  | nil => cases h
  | cons r0 rest ih =>
    obtain ⟨alts0, lbl0⟩ := r0
    simp only [findRuleLabel] at h
    split at h
    · simp only [Option.some.injEq] at h
      simp [← h]
    · exact List.mem_cons_of_mem _ (ih h)

/-- C7: the classifier applies the rule list first-match-wins, and empty,
whitespace-only, and unmatched text all resolve to the catch-all label. -/
theorem C7_classifier_first_match :
    (∀ text : Str, pyStrip text = [] → normalize_reason_category text = CATCH_ALL) ∧
    (∀ text : Str, (∀ ru ∈ CATEGORY_RULES,
        matchRule ru.1 (collapseWS (normName text)) = false) →
      normalize_reason_category text = CATCH_ALL) ∧
    (∀ text : Str, ∀ i : Nat, ∀ ru : List RuleAlt × Str,
      CATEGORY_RULES[i]? = some ru →
      matchRule ru.1 (collapseWS (normName text)) = true →
      (∀ j, j < i → ∀ ru2, CATEGORY_RULES[j]? = some ru2 →
        matchRule ru2.1 (collapseWS (normName text)) = false) →
      normalize_reason_category text = ru.2) := by
  refine ⟨?_, ?_, ?_⟩
  · intro text h
    simp [normalize_reason_category, normName, h, pyLower]
  · intro text h
    by_cases ht : normName text = []
    · simp [normalize_reason_category, ht]
    · simp only [normalize_reason_category, if_neg ht]
      rw [findRuleLabel_none _ _ h]
  · intro text i ru hget hmatch hbefore
    have hmem : ru ∈ CATEGORY_RULES := by
      rcases List.getElem?_eq_some.mp hget with ⟨hlt, heq⟩
      exact heq ▸ List.getElem_mem hlt
    have ht : normName text ≠ [] := by
      intro he
      have hempty : ∀ ru2 ∈ CATEGORY_RULES, matchRule ru2.1 ([] : Str) = false := by decide
      have hc0 : collapseWS ([] : Str) = [] := rfl
      rw [he, hc0, hempty ru hmem] at hmatch
      cases hmatch
    simp only [normalize_reason_category, if_neg ht]
    rw [findRuleLabel_first _ _ i ru hget hmatch hbefore]

/-- Witness for C7 at the spec's example sentence (rule 0 fires) and at the
empty string. -/
theorem C7_classifier_first_match_witness :
    normalize_reason_category (strOf "의지 부족 때문에 못했어요") = strOf "의지 부족" ∧
    normalize_reason_category (strOf "   ") = CATCH_ALL := by
  constructor
  · have h := C7_classifier_first_match.2.2 (strOf "의지 부족 때문에 못했어요") 0
      (CATEGORY_RULES.get ⟨0, by decide⟩) (by decide) (by decide)
      (fun j hj => absurd hj (Nat.not_lt_zero j))
    exact h.trans (by decide)
  · exact C7_classifier_first_match.1 (strOf "   ") (by decide)

/-! ### Counter lemmas (C6) -/

theorem counterBump_keys (k : Str) (c : List (Str × Nat)) (x : Str)
    (hx : x ∈ (counterBump k c).map Prod.fst) : x = k ∨ x ∈ c.map Prod.fst := by
  induction c with
  | nil => simp [counterBump] at hx; simp [hx]
  | cons q t ih =>
    obtain ⟨qk, qn⟩ := q
    simp only [counterBump] at hx
    split at hx
    · simp only [List.map_cons, List.mem_cons] at hx
      rcases hx with h | h
      · exact Or.inr (by simp [h])
      · exact Or.inr (by simp [h])
    · simp only [List.map_cons, List.mem_cons] at hx
      rcases hx with h | h
      · exact Or.inr (by simp [h])
      · rcases ih h with h2 | h2
        · exact Or.inl h2
        · exact Or.inr (by simp [h2])

theorem normalize_mem_labels (t : Str) :
    normalize_reason_category t ∈ CATEGORY_LABELS := by
  by_cases ht : normName t = []
  · have heq : normalize_reason_category t = CATCH_ALL := by
      simp [normalize_reason_category, ht]
    rw [heq]
    decide
  · cases hf : findRuleLabel (collapseWS (normName t)) CATEGORY_RULES with
    | none =>
      have heq : normalize_reason_category t = CATCH_ALL := by
        simp [normalize_reason_category, ht, hf]
      rw [heq]
      decide
    | some lbl =>
      have heq : normalize_reason_category t = lbl := by
        simp [normalize_reason_category, ht, hf]
      have hsub : ∀ l ∈ CATEGORY_RULES.map Prod.snd, l ∈ CATEGORY_LABELS := by decide
      rw [heq]
      exact hsub lbl (findRuleLabel_mem _ _ _ hf)

theorem bumpReasons_keys (c : List (Str × Nat)) (rs : List (Option Str))
    (hc : ∀ x ∈ c.map Prod.fst, x ∈ CATEGORY_LABELS) :
    ∀ x ∈ (bumpReasons c rs).map Prod.fst, x ∈ CATEGORY_LABELS := by
  induction rs generalizing c with
  | nil => simpa [bumpReasons] using hc
  | cons r rest ih =>
    cases r with
    | none => simpa only [bumpReasons] using ih c hc
    | some s =>
      simp only [bumpReasons]
      apply ih
      intro x hx
      rcases counterBump_keys _ _ _ hx with h | h
      · exact h ▸ normalize_mem_labels s
      · exact hc x h

theorem reasonCounterAux_keys (c : List (Str × Nat)) (logs : List HabitLog)
    (hc : ∀ x ∈ c.map Prod.fst, x ∈ CATEGORY_LABELS) :
    ∀ x ∈ (reasonCounterAux c logs).map Prod.fst, x ∈ CATEGORY_LABELS := by
  induction logs generalizing c with
  | nil => simpa [reasonCounterAux] using hc
  | cons log rest ih =>
    simp only [reasonCounterAux]
    split
    · exact ih c hc
    · exact ih _ (bumpReasons_keys c log.failure_reason hc)

theorem insDesc_mem (x : Str × Nat) (l : List (Str × Nat)) (y : Str × Nat)
    (hy : y ∈ insDesc x l) : y = x ∨ y ∈ l := by
  induction l with
  | nil => simp [insDesc] at hy; simp [hy]
  | cons q t ih =>
    simp only [insDesc] at hy
    split at hy
    · rcases List.mem_cons.mp hy with h | h
      · exact Or.inr (by simp [h])
      · rcases ih h with h2 | h2
        · exact Or.inl h2
        · exact Or.inr (by simp [h2])
    · rcases List.mem_cons.mp hy with h | h
      · exact Or.inl h
      · exact Or.inr h

theorem sortDescByCount_mem (l : List (Str × Nat)) (y : Str × Nat)
    (hy : y ∈ sortDescByCount l) : y ∈ l := by
  induction l with
  | nil => simpa [sortDescByCount] using hy
  | cons x t ih =>
    simp only [sortDescByCount] at hy
    rcases insDesc_mem x _ y hy with h | h
    · simp [h]
    · exact List.mem_cons_of_mem _ (ih h)

theorem mostCommonLabels_mem (c : List (Str × Nat)) (k : Nat) (x : Str)
    (hx : x ∈ mostCommonLabels c k) : x ∈ c.map Prod.fst := by
  rcases List.mem_map.mp hx with ⟨p, hp, he⟩
  have hp2 : p ∈ sortDescByCount c := List.take_subset _ _ hp
  exact List.mem_map.mpr ⟨p, sortDescByCount_mem c p hp2, he⟩

/-- C6 (amended): every reason string emitted by
`compute_per_habit_top_failure_reasons` is one of the six category labels;
original free texts (catch-all included) are never surfaced. -/
theorem C6_reasons_are_labels (habits : List Habit) (k : Nat) :
    ∀ e ∈ compute_per_habit_top_failure_reasons habits k,
      ∀ r ∈ e.reasons, r ∈ CATEGORY_LABELS := by
  intro e he r hr
  rcases List.mem_map.mp he with ⟨habit, hhmem, hee⟩
  rw [← hee] at hr
  simp only at hr
  have hkeys := mostCommonLabels_mem (habitReasonCounter habit.habit_log) k r hr
  exact reasonCounterAux_keys [] habit.habit_log (by simp) r hkeys

def logRain : HabitLog :=
  { date := strOf "2025-01-02", completed := false
    failure_reason := [some (strOf "갑자기 비가 와서")] }

def habRain : Habit :=
  { habit_id := 9, name := strOf "달리기", day_of_week := [2]
    start_time := strOf "07:00", end_time := strOf "07:30", habit_log := [logRain] }

/-- Witness for C6 (amended): the habit that failed because of sudden rain
surfaces the catch-all label, which is one of the six labels. -/
theorem C6_reasons_are_labels_witness :
    strOf "기타 (직접 입력)" ∈ CATEGORY_LABELS :=
  C6_reasons_are_labels [habRain] 2
    { habit_id := 9, name := strOf "달리기", reasons := [strOf "기타 (직접 입력)"] }
    (by decide) (strOf "기타 (직접 입력)") (by decide)

/-- C6 counterexample to the claim as stated: the catch-all reason text is
not retained - the generic label is surfaced instead of the original free
text `갑자기 비가 와서`. -/
theorem C6_claim_counterexample :
    (compute_per_habit_top_failure_reasons [habRain] 2).map (fun e => e.reasons)
      = [[strOf "기타 (직접 입력)"]] ∧
    strOf "기타 (직접 입력)" ≠ strOf "갑자기 비가 와서" := by decide

/-! ### Aggregator lemmas (C8) -/

theorem buildPromptTotals_aux (habits : List Habit) :
    ∀ p : Nat × Nat,
      habits.foldl (fun acc h => (acc.1 + habitAttempts h, acc.2 + habitSuccesses h)) p
        = (p.1 + (habits.map habitAttempts).sum, p.2 + (habits.map habitSuccesses).sum) := by
  induction habits with
  | nil => intro p; simp
  | cons a t ih =>
    intro p
    rw [List.foldl_cons, ih]
    simp [Nat.add_assoc]

theorem buildPromptTotals_eq (habits : List Habit) :
    buildPromptTotals habits
      = ((habits.map habitAttempts).sum, (habits.map habitSuccesses).sum) := by
  have h := buildPromptTotals_aux habits (0, 0)
  simpa [buildPromptTotals] using h

def mkLogC (c : Bool) : HabitLog :=
  { date := strOf "2025-01-01", completed := c, failure_reason := [] }

def hab35 : Habit :=
  { habit_id := 11, name := strOf "물 2L", day_of_week := [1]
    start_time := strOf "08:00", end_time := strOf "08:05"
    habit_log := [mkLogC true, mkLogC true, mkLogC true, mkLogC false, mkLogC false] }

def hab15 : Habit :=
  { habit_id := 12, name := strOf "스트레칭", day_of_week := [2]
    start_time := strOf "22:00", end_time := strOf "22:10"
    habit_log := [mkLogC true, mkLogC false, mkLogC false, mkLogC false, mkLogC false] }

def habOne : Habit :=
  { habit_id := 13, name := strOf "독서 10분", day_of_week := [3]
    start_time := strOf "21:00", end_time := strOf "21:10"
    habit_log := [mkLogC true] }

def habThree : Habit :=
  { habit_id := 14, name := strOf "산책", day_of_week := [4]
    start_time := strOf "18:00", end_time := strOf "18:30"
    habit_log := [mkLogC false, mkLogC false, mkLogC false] }

/-- C8: per-habit rate is successes/attempts*100 guarded against zero
attempts; the overall rate pools summed attempts and successes before
dividing (3/5 and 1/5 give exactly 40), and it is not the mean of the
per-habit rates (witnessed by a 1/1, 0/3 pair: pooled 25 vs mean 50). -/
theorem C8_success_rates :
    (∀ habits : List Habit, overall_success_rate habits = pooledRateSpec habits) ∧
    (∀ h : Habit, habitAttempts h = 0 → habit_success_rate h = 0) ∧
    overall_success_rate [hab35, hab15] = 40 ∧
    meanRateSpec [habOne, habThree] ≠ overall_success_rate [habOne, habThree] := by
  refine ⟨?_, ?_, ?_, ?_⟩
  · intro habits
    simp only [overall_success_rate, pooledRateSpec, buildPromptTotals_eq]
  · intro h h0
    simp [habit_success_rate, h0]
  · have hT : buildPromptTotals [hab35, hab15] = (10, 4) := by decide
    simp only [overall_success_rate, hT]
    norm_num
  · have hA : habitAttempts habOne = 1 := by decide
    have hSA : habitSuccesses habOne = 1 := by decide
    have hB : habitAttempts habThree = 3 := by decide
    have hSB : habitSuccesses habThree = 0 := by decide
    have hT : buildPromptTotals [habOne, habThree] = (4, 1) := by decide
    simp only [meanRateSpec, overall_success_rate, habit_success_rate, hA, hSA, hB, hSB,
      hT, List.map_cons, List.map_nil, List.sum_cons, List.sum_nil, List.length_cons,
      List.length_nil]
    norm_num

def habEmpty : Habit :=
  { habit_id := 15, name := strOf "일기", day_of_week := [5]
    start_time := strOf "23:00", end_time := strOf "23:10", habit_log := [] }

/-- Witness for C8: zero attempts give rate exactly 0 (no division), and
the loop totals agree with the pooled formula on a concrete list. -/
theorem C8_success_rates_witness :
    overall_success_rate [hab35, hab15] = pooledRateSpec [hab35, hab15] ∧
    habit_success_rate habEmpty = 0 :=
  ⟨C8_success_rates.1 [hab35, hab15], C8_success_rates.2.1 habEmpty (by decide)⟩

/-! ### Time-window filter lemmas (C9) -/

/-- The per-entry loop equals a `filter` by the date predicate: an entry is
kept iff its date parses and lies in the inclusive range. -/
theorem filterLogsInRange_eq_filter (sd ed : PDate) (logs : List HabitLog) :
    filterLogsInRange sd ed logs
      = logs.filter fun log =>
          match parseDate log.date with
          | some d => pdateLE sd d && pdateLE d ed
          | none => false := by
  induction logs with
  | nil => rfl
  | cons log rest ih =>
    simp only [filterLogsInRange]
    cases hp : parseDate log.date with
    | none => simp [List.filter_cons, hp, ih]
    | some d =>
      by_cases hin : (pdateLE sd d && pdateLE d ed) = true
      · simp [List.filter_cons, hp, hin, ih]
      · simp [List.filter_cons, hp, hin, ih]

/-- C9 (amended, for the date-range filter of `src/app/main.py`): given a
parsable range, the filter totals to exactly the in-range parsable entries
(malformed dates excluded, nothing raised), and drops every habit whose
filtered log is empty. -/
theorem C9_range_filter (habits : List Habit) (sds eds : Str) (sd ed : PDate)
    (hs : parseDate sds = some sd) (he : parseDate eds = some ed) :
    filter_habits_by_date_range habits sds eds
      = some ((habits.map fun h =>
          { h with habit_log := h.habit_log.filter fun log =>
              match parseDate log.date with
              | some d => pdateLE sd d && pdateLE d ed
              | none => false }).filter fun h => !h.habit_log.isEmpty) ∧
    ∀ out, filter_habits_by_date_range habits sds eds = some out →
      ∀ h ∈ out, h.habit_log ≠ [] := by
  have h1 : filter_habits_by_date_range habits sds eds
      = some (((habits.map (withFilteredLog sd ed)).filter fun h => !h.habit_log.isEmpty)) := by
    unfold filter_habits_by_date_range
    rw [hs, he]
  constructor
  · have hm : habits.map (withFilteredLog sd ed)
        = habits.map fun h =>
            { h with habit_log := h.habit_log.filter fun log =>
                match parseDate log.date with
                | some d => pdateLE sd d && pdateLE d ed
                | none => false } :=
      List.map_congr_left fun h _ => by
        simp [withFilteredLog, filterLogsInRange_eq_filter]
    rw [h1, hm]
  · intro out hout h hmem
    rw [h1] at hout
    simp only [Option.some.injEq] at hout
    rw [← hout] at hmem
    have := List.of_mem_filter hmem
    simpa using this

def logIn : HabitLog :=
  { date := strOf "2025-01-15", completed := true, failure_reason := [] }

def logOut : HabitLog :=
  { date := strOf "2025-02-15", completed := false, failure_reason := [] }

def badLog : HabitLog :=
  { date := strOf "not-a-date", completed := false, failure_reason := [] }

def habMix : Habit :=
  { habit_id := 21, name := strOf "물 마시기", day_of_week := [1]
    start_time := strOf "08:00", end_time := strOf "08:05"
    habit_log := [logIn, badLog, logOut] }

/-- Witness for C9 (amended): one in-range entry survives, the malformed
and out-of-range entries are dropped, and the run does not abort. -/
theorem C9_range_filter_witness :
    filter_habits_by_date_range [habMix] (strOf "2025-01-01") (strOf "2025-01-31")
      = some [{ habMix with habit_log := [logIn] }] := by
  have h := (C9_range_filter [habMix] (strOf "2025-01-01") (strOf "2025-01-31")
    ⟨2025, 1, 1⟩ ⟨2025, 1, 31⟩ (by decide) (by decide)).1
  exact h.trans (by decide)

/-- C9 counterexample to the claim as stated: the other time-window filter
in the repository, `extract_last_days_logs` (generate_report.py), raises on
a malformed date instead of excluding the entry - the run aborts. -/
theorem C9_claim_counterexample :
    extract_last_days_logs ⟨2025, 1, 1⟩ ⟨2025, 1, 31⟩ [badLog] = Except.error () ∧
    (Except.error () : Except Unit (List HabitLog)) ≠ Except.ok [] :=
  ⟨rfl, fun h => Except.noConfusion h⟩

/-! ### Attacher lemmas (C10) -/

theorem dictInsertS_mem (k : Str) (v : Int) (l : List (Str × Int)) (q : Str × Int)
    (hq : q ∈ dictInsertS k v l) : q.2 = v ∨ q ∈ l := by
  induction l with
  | nil => simp [dictInsertS] at hq; simp [hq]
  | cons p t ih =>
    obtain ⟨pk, pv⟩ := p
    simp only [dictInsertS] at hq
    split at hq
    · rcases List.mem_cons.mp hq with h | h
      · exact Or.inl (by simp [h])
      · exact Or.inr (List.mem_cons_of_mem _ h)
    · rcases List.mem_cons.mp hq with h | h
      · exact Or.inr (by simp [h])
      · rcases ih h with h2 | h2
        · exact Or.inl h2
        · exact Or.inr (List.mem_cons_of_mem _ h2)

theorem idByNameNormAux_mem (l : List (Int × Str)) (acc : List (Str × Int))
    (q : Str × Int) (hq : q ∈ idByNameNormAux acc l) :
    q ∈ acc ∨ ∃ p ∈ l, q.2 = p.1 := by
  induction l generalizing acc with
  | nil => simpa only [idByNameNormAux] using Or.inl hq
  | cons p t ih =>
    simp only [idByNameNormAux] at hq
    rcases ih _ hq with hi | hi
    · split at hi
      · rcases dictInsertS_mem _ _ _ _ hi with h | h
        · exact Or.inr ⟨p, List.mem_cons_self _ _, h⟩
        · exact Or.inl h
      · exact Or.inl hi
    · rcases hi with ⟨p2, hp2, he⟩
      exact Or.inr ⟨p2, List.mem_cons_of_mem _ hp2, he⟩

theorem idByNameNorm_val_mem (habits : List Habit) (q : Str × Int)
    (hq : q ∈ idByNameNorm habits) : q.2 ∈ validIds habits := by
  rcases idByNameNormAux_mem (nameById habits) [] q hq with h | h
  · cases h
  · rcases h with ⟨p, hp, he⟩
    rw [he]
    exact nameById_key_mem habits p hp

theorem lookupS_mem (k : Str) (l : List (Str × Int)) (v : Int)
    (h : lookupS k l = some v) : (k, v) ∈ l := by
  induction l with
  | nil => cases h
  | cons p t ih =>
    obtain ⟨pk, pv⟩ := p
    simp only [lookupS] at h
    split at h
    · simp only [Option.some.injEq] at h
      subst h
      rename_i he
      rw [← he]
      exact List.mem_cons_self _ _
    · exact List.mem_cons_of_mem _ (ih h)

theorem substrMatch_mem (n : Str) (l : List (Str × Int)) (v : Int)
    (h : substrMatch n l = some v) : ∃ nm, (nm, v) ∈ l := by
  induction l with
  | nil => cases h
  | cons p t ih =>
    obtain ⟨pk, pv⟩ := p
    simp only [substrMatch] at h
    split at h
    · simp only [Option.some.injEq] at h
      subst h
      exact ⟨pk, List.mem_cons_self _ _⟩
    · rcases ih h with ⟨nm, hnm⟩
      exact ⟨nm, List.mem_cons_of_mem _ hnm⟩

/-- The resolution chain for an item carrying no valid id. -/
def resolveByName (habits : List Habit) (n : Str) : Int :=
  ((lookupS n (idByNameNorm habits)).orElse
    fun _ => substrMatch n (idByNameNorm habits)).getD ((validIds habits).headD 0)

theorem resolveByName_spec (habits : List Habit) (hne : habits ≠ []) (n : Str) :
    resolveByName habits n ∈ validIds habits ∧
    (∀ m, lookupS n (idByNameNorm habits) = some m → resolveByName habits n = m) ∧
    (lookupS n (idByNameNorm habits) = none →
      ∀ m, substrMatch n (idByNameNorm habits) = some m → resolveByName habits n = m) ∧
    (lookupS n (idByNameNorm habits) = none →
      substrMatch n (idByNameNorm habits) = none →
      resolveByName habits n = (validIds habits).headD 0) := by
  cases hl : lookupS n (idByNameNorm habits) with
  | some m =>
    have hv : resolveByName habits n = m := by simp [resolveByName, hl, Option.orElse]
    refine ⟨?_, ?_, ?_, ?_⟩
    · rw [hv]
      exact idByNameNorm_val_mem habits (n, m) (lookupS_mem _ _ _ hl)
    · intro m2 h2
      cases h2
      exact hv
    · intro hc
      cases hc
    · intro hc
      cases hc
  | none =>
    cases hs : substrMatch n (idByNameNorm habits) with
    | some m =>
      have hv : resolveByName habits n = m := by simp [resolveByName, hl, hs, Option.orElse]
      refine ⟨?_, ?_, ?_, ?_⟩
      · rw [hv]
        rcases substrMatch_mem _ _ _ hs with ⟨nm, hnm⟩
        exact idByNameNorm_val_mem habits (nm, m) hnm
      · intro m2 h2
        cases h2
      · intro _ m2 h2
        cases h2
        exact hv
      · intro _ hc
        cases hc
    | none =>
      have hv : resolveByName habits n = (validIds habits).headD 0 := by
        simp [resolveByName, hl, hs, Option.orElse]
      refine ⟨?_, ?_, ?_, ?_⟩
      · rw [hv]
        exact headD_mem _ _ (validIds_ne_nil habits hne)
      · intro m2 h2
        cases h2
      · intro _ m2 h2
        cases h2
      · intro _ _
        exact hv

/-- C10 (amended): every object-shaped entry of `top_failure_reasons` ends
up with a habit_id drawn from the active habits, resolved by: keep a valid
id, else exact normalised-name match, else substring containment, else the
first habit's id.  (Non-dict entries are skipped by the loop.) -/
theorem C10_attach_valid_ids (habits : List Habit) (hne : habits ≠ [])
    (items : List FailItem) (i : Nat) (hid : Option Int) (hb nm : Option Str)
    (rs : List Str) (hget : items[i]? = some (.obj hid hb nm rs)) :
    ∃ v : Int,
      (attach_habit_ids_to_failures items habits)[i]? = some (.obj (some v) hb nm rs) ∧
      v ∈ validIds habits ∧
      (∀ w, hid = some w → w ∈ validIds habits → v = w) ∧
      ((∀ w, hid = some w → w ∉ validIds habits) →
        (∀ m, lookupS (normName (effName hb nm)) (idByNameNorm habits) = some m → v = m) ∧
        (lookupS (normName (effName hb nm)) (idByNameNorm habits) = none →
          ∀ m, substrMatch (normName (effName hb nm)) (idByNameNorm habits) = some m →
            v = m) ∧
        (lookupS (normName (effName hb nm)) (idByNameNorm habits) = none →
          substrMatch (normName (effName hb nm)) (idByNameNorm habits) = none →
          v = (validIds habits).headD 0)) := by
  have hmap : (attach_habit_ids_to_failures items habits)[i]?
      = some (attachItem (validIds habits) (idByNameNorm habits)
          ((validIds habits).headD 0) (.obj hid hb nm rs)) := by
    unfold attach_habit_ids_to_failures
    rw [List.getElem?_map, hget]
    rfl
  rcases resolveByName_spec habits hne (normName (effName hb nm)) with ⟨hv1, hv2, hv3, hv4⟩
  cases hid with
  | some w =>
    by_cases hw : w ∈ validIds habits
    · refine ⟨w, ?_, hw, ?_, ?_⟩
      · rw [hmap]
        simp [attachItem, hw]
      · intro w2 he _
        cases he
        rfl
      · intro hcontra
        exact absurd hw (hcontra w rfl)
    · refine ⟨resolveByName habits (normName (effName hb nm)), ?_, hv1, ?_,
        fun _ => ⟨hv2, hv3, hv4⟩⟩
      · rw [hmap]
        simp [attachItem, hw, resolveByName]
      · intro w2 he hw2
        cases he
        exact absurd hw2 hw
  | none =>
    refine ⟨resolveByName habits (normName (effName hb nm)), ?_, hv1, ?_,
      fun _ => ⟨hv2, hv3, hv4⟩⟩
    · rw [hmap]
      rfl
    · intro w2 he
      cases he

/-- Witness for C10 (amended): an id-less entry named `아침` resolves by
substring containment to habit 1 (`아침 운동`). -/
theorem C10_attach_valid_ids_witness :
    ((attach_habit_ids_to_failures [FailItem.obj none none (some (strOf "아침")) []]
      [habA, habB])[0]?).map failItemId = some (some 1) := by
  rcases C10_attach_valid_ids [habA, habB] (by decide)
      [FailItem.obj none none (some (strOf "아침")) []] 0 none none
      (some (strOf "아침")) [] (by decide) with ⟨v, hv, hmem, hkeep, hres⟩
  have hl : lookupS (normName (effName none (some (strOf "아침"))))
      (idByNameNorm [habA, habB]) = none := by decide
  have hs : substrMatch (normName (effName none (some (strOf "아침"))))
      (idByNameNorm [habA, habB]) = some 1 := by decide
  have hveq : v = 1 := (hres fun w he => by cases he).2.1 hl 1 hs
  rw [hv, hveq]
  rfl

/-- C10 counterexample to the claim as stated: a non-dict entry is skipped
by the attacher and carries no habit_id at all. -/
theorem C10_claim_counterexample :
    attach_habit_ids_to_failures [FailItem.raw (strOf "x")] [habA]
      = [FailItem.raw (strOf "x")] ∧
    failItemId (FailItem.raw (strOf "x")) = none := by decide
